import Mathlib

/-!
Verification of the BPM/MIDI repair engine.

Shallow embedding of the core engine of the `midi_repair` package:
* `seconds_to_ticks_using_original_tempo` and its loop (gui/export.py),
* the segment-export tempo-track builder (gui/export.py),
* the repair pipeline (core/repair.py),
* the non-tempo track copy loop shared by repair and export.

Python floats are modelled as exact rationals; Python `int()` is
truncation toward zero; a Python `ZeroDivisionError` raised by the mido
helpers is modelled by an `Option`/`Except` failure value.
-/

namespace MidiRepair

/-- Python `int()` on a real value: truncation toward zero. -/
def pyInt (q : ℚ) : ℤ := if 0 ≤ q then ⌊q⌋ else ⌈q⌉

/-- Python `round()` on a real value: round half to even. -/
def pyRound (q : ℚ) : ℤ :=
  let f := ⌊q⌋
  if q - f < 1/2 then f
  else if (1:ℚ)/2 < q - f then f + 1
  else if f % 2 = 0 then f else f + 1

/-- `mido.tempo2bpm(tempo) = (60 * 1e6) / tempo`; raises `ZeroDivisionError`
(modelled as `none`) when `tempo = 0`. -/
def tempo2bpm (tempo : ℚ) : Option ℚ :=
  if tempo = 0 then none else some (60000000 / tempo)

/-- `mido.bpm2tempo(bpm) = int(round((60 * 1e6) / bpm))`; raises
`ZeroDivisionError` (modelled as `none`) when `bpm = 0`. -/
def bpm2tempo (bpm : ℚ) : Option ℤ :=
  if bpm = 0 then none else some (pyRound (60000000 / bpm))

/-- In-memory MIDI message: `set_tempo` and `time_signature` meta-events are
inspected by the engine; every other event is an opaque payload carrying its
message type and its delta time. -/
inductive MidiMsg where
  | setTempo (tempo : ℤ) (time : ℤ)
  | timeSignature (numerator denominator : ℤ) (time : ℤ)
  | other (kind : String) (time : ℤ)
deriving DecidableEq

/-- Delta time (in ticks) of a message relative to its predecessor. -/
def MidiMsg.time : MidiMsg → ℤ
  | .setTempo _ t => t
  | .timeSignature _ _ t => t
  | .other _ t => t

/-- `msg.type == "set_tempo"`. -/
def MidiMsg.isSetTempo : MidiMsg → Bool
  | .setTempo _ _ => true
  | _ => false

/-- `msg.type == "time_signature"`. -/
def MidiMsg.isTimeSignature : MidiMsg → Bool
  | .timeSignature _ _ _ => true
  | _ => false

/-- `msg.type in ("note_on", "note_off")`. -/
def MidiMsg.isNoteEvent : MidiMsg → Bool
  | .other k _ => k = "note_on" || k = "note_off"
  | _ => false

/-- `Section` dataclass from gui/models.py (the field `end` is written `end_`
because `end` is reserved). -/
structure Section where
  start : ℚ
  end_ : ℚ
  bpm : ℤ := 120
  note_count : ℤ := 0
  description : String := ""
deriving DecidableEq

/-- Loop body of `_seconds_to_ticks_using_original_tempo` (gui/export.py
lines 86-114).  State: remaining map entries, previous entry tick, previous
entry tempo, cumulative seconds, cumulative ticks.  The first call passes the
head entry itself with previous tick `0` and previous tempo the head's own
tempo, exactly as the Python indexing does for `i = 0`. -/
def seconds_to_ticks_go (seconds : ℚ) (ticks_per_beat : ℤ) :
    List (ℤ × ℤ) → ℤ → ℤ → ℚ → ℤ → Option ℤ
  | [], _prevTick, prevTempo, cumTime, cumTicks =>
    -- lines 110-114: after all known tempo events, use the last tempo
    match tempo2bpm (prevTempo : ℚ) with
    | none => none
    | some bpmv =>
      let tps : ℚ := ((ticks_per_beat : ℚ) * bpmv) / 60
      some (cumTicks + pyInt ((seconds - cumTime) * tps))
  | (tickPos, tempo) :: rest, prevTick, prevTempo, cumTime, cumTicks =>
    let ticksToThis : ℤ := tickPos - prevTick
    match tempo2bpm (prevTempo : ℚ) with
    | none => none
    | some bpmv =>
      let tps : ℚ := ((ticks_per_beat : ℚ) * bpmv) / 60
      let segSeconds : ℚ := if 0 < tps then (ticksToThis : ℚ) / tps else 0
      if seconds < cumTime + segSeconds then
        some (cumTicks + pyInt ((seconds - cumTime) * tps))
      else
        seconds_to_ticks_go seconds ticks_per_beat rest tickPos tempo
          (cumTime + segSeconds) (cumTicks + ticksToThis)

/-- `_seconds_to_ticks_using_original_tempo` (gui/export.py lines 60-114). -/
def seconds_to_ticks_using_original_tempo
    (seconds : ℚ) (tempo_map : List (ℤ × ℤ)) (ticks_per_beat : ℤ) : Option ℤ :=
  match tempo_map with
  | [] =>
    -- lines 76-80: default to 120 BPM (500000 microseconds per beat)
    match tempo2bpm 500000 with
    | none => none
    | some bpmv => some (pyInt (seconds * (((ticks_per_beat : ℚ) * bpmv) / 60)))
  | (t0, tau0) :: rest =>
    seconds_to_ticks_go seconds ticks_per_beat ((t0, tau0) :: rest) 0 tau0 0 0

/-- `ticks_per_second` as computed from a tempo payload on the successful
path of the converter: `ticks_per_beat * tempo2bpm(tempo) / 60`. -/
def tps_val (ticks_per_beat ptau : ℤ) : ℚ :=
  ((ticks_per_beat : ℚ) * (60000000 / (ptau : ℚ))) / 60

/-- Stable insertion into an already processed list: the new element goes
after every element it does not strictly precede, matching the stability of
Python sorting. -/
def stable_insert {α : Type} (le : α → α → Bool) (x : α) : List α → List α
  | [] => [x]
  | y :: rest => if le y x then y :: stable_insert le x rest else x :: y :: rest

/-- Stable sort (insertion sort), modelling Python `sorted`/`list.sort`. -/
def stable_sort {α : Type} (le : α → α → Bool) (l : List α) : List α :=
  l.foldl (fun acc x => stable_insert le x acc) []

/-- `sorted(sections, key=lambda s: s.start)` (gui/export.py line 154). -/
def sort_sections_by_start (sections : List Section) : List Section :=
  stable_sort (fun a b => decide (a.start ≤ b.start)) sections

/-- `_get_original_tempo_map` (gui/export.py lines 29-57): accumulate
absolute ticks over track 0, record every `set_tempo`, then sort by tick. -/
def get_original_tempo_map (tracks : List (List MidiMsg)) : List (ℤ × ℤ) :=
  match tracks with
  | [] => []
  | t0 :: _ =>
    let raw := (t0.foldl
      (fun (st : ℤ × List (ℤ × ℤ)) msg =>
        let cum := st.1 + msg.time
        match msg with
        | MidiMsg.setTempo tau _ => (cum, st.2 ++ [(cum, tau)])
        | _ => (cum, st.2))
      (0, [])).2
    stable_sort (fun a b => decide (a.1 ≤ b.1)) raw

/-- mido's attribute check for `set_tempo` meta messages: constructing
`MetaMessage("set_tempo", tempo=v, ...)` runs `check_int(v, 0, 0xffffff)`
(mido/midifiles/meta.py) and raises `ValueError` unless
`0 ≤ v ≤ 16777215`. -/
def set_tempo_in_range (tempo : ℤ) : Bool :=
  decide (0 ≤ tempo) && decide (tempo ≤ 16777215)

/-- Message of the `ValueError` raised by mido's `check_int` for an
out-of-range `set_tempo` value.  The model keeps one fixed descriptive text
for both bound violations; no theorem inspects this branch's message. -/
def set_tempo_range_error : String := "tempo out of range 0..16777215"

/-- Every `set_tempo` payload of the parsed tracks lies in the three-byte
range `0..16777215` — true of every file mido can parse, since the tempo of
a parsed `set_tempo` event is decoded from three bytes. -/
def ValidTempoPayloads (tracks : List (List MidiMsg)) : Prop :=
  ∀ t ∈ tracks, ∀ msg ∈ t, ∀ tau dt, msg = MidiMsg.setTempo tau dt →
    0 ≤ tau ∧ tau ≤ 16777215

/-- Tempo-change emission loop of `export_segments_to_midi` (gui/export.py
lines 165-191).  Each section contributes one `set_tempo` message at delta
`current_ticks - last_ticks`; a `ZeroDivisionError` from either conversion,
or the `ValueError` of the `MetaMessage` range check on the tempo value,
aborts the whole export (`none`). -/
def export_loop (tempo_map : List (ℤ × ℤ)) (ticks_per_beat : ℤ) :
    List Section → ℤ → Option (List MidiMsg)
  | [], _lastTicks => some []
  | s :: rest, lastTicks =>
    match seconds_to_ticks_using_original_tempo s.start tempo_map ticks_per_beat with
    | none => none
    | some currentTicks =>
      match bpm2tempo (s.bpm : ℚ) with
      | none => none
      | some tempoValue =>
        if set_tempo_in_range tempoValue then
          match export_loop tempo_map ticks_per_beat rest currentTicks with
          | none => none
          | some msgs =>
            some (MidiMsg.setTempo tempoValue (currentTicks - lastTicks) :: msgs)
        else none

/-- New tempo track built by `export_segments_to_midi` (gui/export.py lines
153-191): a 4/4 time signature at tick 0 followed by one tempo change per
sorted section. -/
def build_export_tempo_track
    (sections : List Section) (tempo_map : List (ℤ × ℤ)) (ticks_per_beat : ℤ) :
    Option (List MidiMsg) :=
  match export_loop tempo_map ticks_per_beat (sort_sections_by_start sections) 0 with
  | none => none
  | some msgs => some (MidiMsg.timeSignature 4 4 0 :: msgs)

/-- Non-tempo track copy loop shared by repair (core/repair.py lines 115-124)
and segment export (gui/export.py lines 196-205): append every message except
`set_tempo` ones. -/
def copy_non_tempo_track (track : List MidiMsg) : List MidiMsg :=
  track.foldl (fun acc msg => if msg.isSetTempo then acc else acc ++ [msg]) []

/-- Track list produced by `export_segments_to_midi` (gui/export.py lines
140-209) after a successful parse, as a function of the parsed tracks. -/
def export_build_tracks
    (tracks : List (List MidiMsg)) (sections : List Section) (ticks_per_beat : ℤ) :
    Option (List (List MidiMsg)) :=
  let tempo_map := get_original_tempo_map tracks
  match build_export_tempo_track sections tempo_map ticks_per_beat with
  | none => none
  | some t0 => some (t0 :: (tracks.drop 1).map copy_non_tempo_track)

/-- First `set_tempo` payload of a track, if any. -/
def first_set_tempo : List MidiMsg → Option ℤ
  | [] => none
  | MidiMsg.setTempo tau _ :: _ => some tau
  | _ :: rest => first_set_tempo rest

/-- `detect_original_bpm` (core/repair.py lines 18-37): the first tempo event
of track 0 gives `int(tempo2bpm(tempo) + 0.5)`; any exception (including the
`ZeroDivisionError` for a zero tempo payload) yields `None`. -/
def detect_original_bpm (tracks : List (List MidiMsg)) : Option ℤ :=
  match tracks with
  | [] => none
  | t0 :: _ =>
    match first_set_tempo t0 with
    | none => none
    | some tau =>
      match tempo2bpm (tau : ℚ) with
      | none => none
      | some b => some (pyInt (b + 1/2))

/-- Resolution of the target BPM in `repair_midi` (core/repair.py lines
84-92): an explicit target wins; otherwise the detected BPM when truthy
(non-`None` and nonzero), otherwise 80. -/
def repair_target_bpm (tracks : List (List MidiMsg)) (target_bpm : Option ℤ) : ℤ :=
  match target_bpm with
  | some b => b
  | none =>
    match detect_original_bpm tracks with
    | some d => if d = 0 then 80 else d
    | none => 80

/-- Track list produced by `repair_midi` (core/repair.py lines 99-137) after
a successful parse: a rebuilt track 0 with a single tempo event and a single
4/4 time signature, then every further track copied without its tempo
events.  `none` models the `ZeroDivisionError` of `bpm2tempo` on a zero
target BPM and the `ValueError` of the `MetaMessage` range check when the
tempo value falls outside `0..16777215` (repair.py line 105). -/
def repair_build_tracks
    (tracks : List (List MidiMsg)) (target_bpm : Option ℤ) :
    Option (List (List MidiMsg)) :=
  let tgt := repair_target_bpm tracks target_bpm
  match bpm2tempo (tgt : ℚ) with
  | none => none
  | some tempoValue =>
    if set_tempo_in_range tempoValue then
      some ([MidiMsg.setTempo tempoValue 0, MidiMsg.timeSignature 4 4 0]
        :: (tracks.drop 1).map copy_non_tempo_track)
    else none

/-- The `details` dictionary of `repair_midi` (core/repair.py lines 61-66). -/
structure RepairDetails where
  original_bpm : Option ℤ
  target_bpm : Option ℤ
  tracks_processed : ℕ
  notes_copied : ℕ
deriving DecidableEq

/-- Initial `details` value (core/repair.py lines 61-66). -/
def repair_details0 : RepairDetails :=
  { original_bpm := none, target_bpm := none, tracks_processed := 0, notes_copied := 0 }

/-- `details["notes_copied"]`: note events counted over tracks 1.. (core/
repair.py lines 126-128). -/
def notes_copied (tracks : List (List MidiMsg)) : ℕ :=
  ((tracks.drop 1).map (fun t => t.countP MidiMsg.isNoteEvent)).sum

/-- Control-flow model of `repair_midi` (core/repair.py lines 40-166).  The
interactions with the world are explicit inputs: whether the input path
exists, the outcome of the mido parse, and the outcome of directory creation
plus save.  Every failure is translated into a `(success, message, details)`
triple; no failure escapes. -/
def repair_midi (input_file : String) (file_exists : Bool)
    (parse : Except String (List (List MidiMsg))) (target_bpm : Option ℤ)
    (write_result : Except String Unit) : Bool × String × RepairDetails :=
  if file_exists = false then
    (false, "Input file not found: " ++ input_file, repair_details0)
  else
    match parse with
    | Except.error e => (false, "Error repairing MIDI: " ++ e, repair_details0)
    | Except.ok tracks =>
      let detected := detect_original_bpm tracks
      let tgt := repair_target_bpm tracks target_bpm
      match bpm2tempo (tgt : ℚ) with
      | none =>
        -- str(ZeroDivisionError) of `(60 * 1e6) / 0`
        (false, "Error repairing MIDI: float division by zero",
          { original_bpm := detected, target_bpm := some tgt,
            tracks_processed := 0, notes_copied := 0 })
      | some tempoValue =>
        if set_tempo_in_range tempoValue then
          let details :=
            { original_bpm := detected, target_bpm := some tgt,
              tracks_processed := tracks.length, notes_copied := notes_copied tracks :
              RepairDetails }
          match write_result with
          | Except.error e => (false, "Error repairing MIDI: " ++ e, details)
          | Except.ok _ =>
            (true, "Successfully repaired MIDI file. BPM set to " ++ toString tgt,
              details)
        else
          -- the MetaMessage range check of repair.py line 105 raises ValueError
          (false, "Error repairing MIDI: " ++ set_tempo_range_error,
            { original_bpm := detected, target_bpm := some tgt,
              tracks_processed := 0, notes_copied := 0 })

/-- Modelled from the spec: the Tempo Codec (spec section 4.1) lives in the
external mido dependency, not under src/.  `bpm_to_tempo(bpm) =
round(60,000,000 / bpm)`, with the rounding of section 4.1 (round half up,
which is what Mathlib `round` computes). -/
def bpm_to_tempo (bpm : ℚ) : ℤ := round ((60000000 : ℚ) / bpm)

/-- Modelled from the spec: `tempo_to_bpm(tempo_units) = 60,000,000 /
tempo_units` as an exact (floating in the source) value. -/
def tempo_to_bpm (tempo_units : ℚ) : ℚ := (60000000 : ℚ) / tempo_units

/-- Absolute tick position of the event at index `i` of a track: the sum of
the delta times of events `0..i`. -/
def absTimeAt (track : List MidiMsg) (i : ℕ) : ℤ :=
  ((track.take (i + 1)).map MidiMsg.time).sum

/-- Tick positions of a tempo map are bounded below by `lb` and
non-decreasing. -/
def TicksChain : ℤ → List (ℤ × ℤ) → Prop
  | _, [] => True
  | lb, (t, _) :: rest => lb ≤ t ∧ TicksChain t rest

/-- Every tempo value of the map is positive. -/
def PosTempos (m : List (ℤ × ℤ)) : Prop := ∀ e ∈ m, 0 < e.2

theorem pyInt_of_nonneg {a : ℚ} (h : 0 ≤ a) : pyInt a = ⌊a⌋ := by
  simp [pyInt, h]

theorem pyInt_nonneg {a : ℚ} (h : 0 ≤ a) : 0 ≤ pyInt a := by
  rw [pyInt_of_nonneg h]
  exact Int.floor_nonneg.2 h

theorem pyInt_mono {a b : ℚ} (h : a ≤ b) : pyInt a ≤ pyInt b := by
  unfold pyInt
  by_cases ha : 0 ≤ a
  · rw [if_pos ha, if_pos (ha.trans h)]
    exact Int.floor_le_floor h
  · rw [if_neg ha]
    by_cases hb : 0 ≤ b
    · rw [if_pos hb]
      have h1 : ⌈a⌉ ≤ 0 := Int.ceil_le.2 (by push_cast; exact le_of_not_le ha)
      exact h1.trans (Int.floor_nonneg.2 hb)
    · rw [if_neg hb]
      exact Int.ceil_le_ceil h

theorem pyInt_le_of_lt_intCast {a : ℚ} {n : ℤ} (h : a < n) : pyInt a ≤ n := by
  unfold pyInt
  by_cases ha : 0 ≤ a
  · rw [if_pos ha]
    exact (Int.floor_lt.2 h).le
  · rw [if_neg ha]
    exact Int.ceil_le.2 h.le

/-- C1 (counterexample): with an empty tempo map, `ticks_per_beat = 1` and
`T = 1/4`, the converter returns the truncated value `0`, not `T * P * 2 =
1/2`; so the conversion does not return exactly `T * P * 2` for every
`T ≥ 0`. -/
theorem seconds_to_ticks_empty_map_counterexample :
    seconds_to_ticks_using_original_tempo (1/4) [] 1 = some 0 ∧
      ((1/4 : ℚ) * 1 * 2 ≠ ((0 : ℤ) : ℚ)) := by
  refine ⟨by with_unfolding_all rfl, by norm_num⟩

/-- C1 (amended): with an empty tempo map, for every `T ≥ 0` and every
positive `ticks_per_beat` `P`, the converter returns exactly
`⌊T * P * 2⌋` — the default-tempo (120 BPM) value `T * P * 2` truncated to
an integer, hence exactly `T * P * 2` whenever that value is integral. -/
theorem seconds_to_ticks_empty_map (T : ℚ) (P : ℤ) (hT : 0 ≤ T) (hP : 0 < P) :
    seconds_to_ticks_using_original_tempo T [] P = some ⌊T * P * 2⌋ := by
  have hP' : (0 : ℚ) ≤ (P : ℚ) := by exact_mod_cast hP.le
  have hnn : (0 : ℚ) ≤ T * P * 2 := by positivity
  have h5 : tempo2bpm 500000 = some 120 := by with_unfolding_all rfl
  simp only [seconds_to_ticks_using_original_tempo, h5]
  have harg : T * (((P : ℚ)) * 120 / 60) = T * ↑P * 2 := by ring
  rw [harg, pyInt_of_nonneg hnn]

/-- Witness for C1 (amended) at `T = 3`, `P = 480`. -/
theorem seconds_to_ticks_empty_map_witness :
    seconds_to_ticks_using_original_tempo 3 [] 480 = some 2880 := by
  have h := seconds_to_ticks_empty_map 3 480 (by norm_num) (by norm_num)
  rw [h]
  norm_num

/-- C2: the three segments `(0,10,100)`, `(10,20,140)`, `(20,30,80)`
exported against the single-entry original tempo map `[(0, 500000)]`
(constant 120 BPM at tick 0) with `ticks_per_beat = 480` get tick positions
`0`, `9600`, `19200`, and the new track 0 carries exactly three `set_tempo`
events with delta ticks `0`, `9600`, `9600`. -/
theorem export_scenario_three_segments :
    seconds_to_ticks_using_original_tempo 0 [(0, 500000)] 480 = some 0 ∧
    seconds_to_ticks_using_original_tempo 10 [(0, 500000)] 480 = some 9600 ∧
    seconds_to_ticks_using_original_tempo 20 [(0, 500000)] 480 = some 19200 ∧
    build_export_tempo_track
        [{ start := 0, end_ := 10, bpm := 100 },
         { start := 10, end_ := 20, bpm := 140 },
         { start := 20, end_ := 30, bpm := 80 }]
        [(0, 500000)] 480
      = some [MidiMsg.timeSignature 4 4 0,
              MidiMsg.setTempo 600000 0,
              MidiMsg.setTempo 428571 9600,
              MidiMsg.setTempo 750000 9600] := by
  refine ⟨by with_unfolding_all rfl, by with_unfolding_all rfl,
    by with_unfolding_all rfl, by with_unfolding_all rfl⟩

/-- C3: the converter does not guard the divisions inside `tempo2bpm`.  On
the map `[(0, 0)]` it hits a division by the zero tempo and fails (Python:
`ZeroDivisionError`), and on the map `[(0, -500000)]` it happily uses the
negative tempo, returning a negative tick count for `T = 1` — it falls back
to neither the previous valid tempo nor the 120 BPM default. -/
theorem seconds_to_ticks_invalid_tempo_behavior :
    seconds_to_ticks_using_original_tempo 1 [(0, 0)] 480 = none ∧
      seconds_to_ticks_using_original_tempo 1 [(0, -500000)] 480 = some (-960) := by
  refine ⟨by with_unfolding_all rfl, by with_unfolding_all rfl⟩

/-- C5 (counterexample): at `b = 9999` the codec round trip misses:
`bpm_to_tempo 9999 = 6001` and `tempo_to_bpm 6001 = 9998.33…` rounds to
`9998 ≠ 9999`. -/
theorem tempo_roundtrip_counterexample :
    bpm_to_tempo 9999 = 6001 ∧
      round (tempo_to_bpm ((bpm_to_tempo (9999 : ℚ) : ℤ) : ℚ)) = 9998 ∧
      (9998 : ℤ) ≠ 9999 := by
  refine ⟨by with_unfolding_all rfl, by with_unfolding_all rfl, by decide⟩

/-- C5 (amended): the codec round trip `round (tempo_to_bpm (bpm_to_tempo
b)) = b` holds for every integer BPM `1 ≤ b ≤ 7745`; beyond roughly
`sqrt(60000000)` the half-unit rounding of the tempo value can move the
recovered BPM by more than half a unit (first checked failure at
`b = 9999`). -/
theorem tempo_roundtrip (b : ℤ) (hb_lo : 1 ≤ b) (hb_hi : b ≤ 7745) :
    round (tempo_to_bpm ((bpm_to_tempo (b : ℚ) : ℤ) : ℚ)) = b := by
  have hb0 : (0 : ℚ) < (b : ℚ) := by exact_mod_cast (by omega : (0 : ℤ) < b)
  have hb1 : (1 : ℚ) ≤ (b : ℚ) := by exact_mod_cast hb_lo
  have hb2 : (b : ℚ) ≤ 7745 := by exact_mod_cast hb_hi
  set q : ℚ := 60000000 / (b : ℚ) with hq
  have hqb : q * b = 60000000 := div_mul_cancel₀ _ hb0.ne'
  have hround : ((bpm_to_tempo (b : ℚ) : ℤ) : ℚ) = ((round q : ℤ) : ℚ) := by
    rw [bpm_to_tempo, ← hq]
  set u : ℚ := ((bpm_to_tempo (b : ℚ) : ℤ) : ℚ) with hu
  have habs : |q - u| ≤ 1 / 2 := by
    rw [hround]
    simpa [abs_sub_comm] using abs_sub_round q
  obtain ⟨hL, hR⟩ := abs_sub_le_iff.1 habs
  have hq_lb : (b : ℚ) + 3 / 2 ≤ q := by
    rw [hq, le_div_iff₀ hb0]
    nlinarith [mul_le_mul_of_nonneg_right hb2 hb0.le, hb1, hb2]
  have hub : (b : ℚ) + 1 ≤ u := by linarith
  have hu_pos : (0 : ℚ) < u := by linarith
  rw [tempo_to_bpm, round_eq, Int.floor_eq_iff]
  constructor
  · have key : ((b : ℚ) - 1 / 2) * u ≤ 60000000 := by
      nlinarith [mul_le_mul_of_nonneg_left
        (show u ≤ q + 1 / 2 by linarith)
        (show (0 : ℚ) ≤ (b : ℚ) - 1 / 2 by linarith), hq_lb, hqb]
    have h3 : (b : ℚ) - 1 / 2 ≤ 60000000 / u := (le_div_iff₀ hu_pos).2 key
    linarith
  · have key : 60000000 < ((b : ℚ) + 1 / 2) * u := by
      nlinarith [mul_le_mul_of_nonneg_left
        (show q - 1 / 2 ≤ u by linarith)
        (show (0 : ℚ) ≤ (b : ℚ) + 1 / 2 by linarith), hq_lb, hqb]
    have h3 : 60000000 / u < (b : ℚ) + 1 / 2 := (div_lt_iff₀ hu_pos).2 key
    linarith

/-- Witness for C5 (amended) at `b = 120` (tempo 500000). -/
theorem tempo_roundtrip_witness :
    round (tempo_to_bpm ((bpm_to_tempo ((120 : ℤ) : ℚ) : ℤ) : ℚ)) = 120 :=
  tempo_roundtrip 120 (by norm_num) (by norm_num)

theorem copy_foldl_eq_filter (l acc : List MidiMsg) :
    l.foldl (fun acc msg => if msg.isSetTempo then acc else acc ++ [msg]) acc
      = acc ++ l.filter (fun msg => !(MidiMsg.isSetTempo msg)) := by
  induction l generalizing acc with
  | nil => simp
  | cons x xs ih =>
    simp only [List.foldl_cons, List.filter_cons]
    cases hx : x.isSetTempo
    · simp [hx, ih]
    · simp [hx, ih]

theorem copy_eq_filter (track : List MidiMsg) :
    copy_non_tempo_track track
      = track.filter (fun msg => !(MidiMsg.isSetTempo msg)) := by
  simpa using copy_foldl_eq_filter track []

/-- C4: the copy loop shared by repair and export keeps every non-tempo
message untouched (same payload, same delta time), in the original order,
and removes exactly the `set_tempo` messages — it is the `set_tempo` filter.
Consequently every track after track 0 of a successful repair or export is
the filtered original track. -/
theorem non_tempo_content_passthrough :
    (∀ track, copy_non_tempo_track track
        = track.filter (fun msg => !(MidiMsg.isSetTempo msg))) ∧
    (∀ tracks target_bpm out, repair_build_tracks tracks target_bpm = some out →
        out.drop 1 = (tracks.drop 1).map
          (fun t => t.filter (fun msg => !(MidiMsg.isSetTempo msg)))) ∧
    (∀ tracks sections P out, export_build_tracks tracks sections P = some out →
        out.drop 1 = (tracks.drop 1).map
          (fun t => t.filter (fun msg => !(MidiMsg.isSetTempo msg)))) := by
  have hmap : ∀ tracks : List (List MidiMsg),
      (tracks.drop 1).map copy_non_tempo_track
        = (tracks.drop 1).map
            (fun t => t.filter (fun msg => !(MidiMsg.isSetTempo msg))) := by
    intro tracks
    exact List.map_congr_left fun t _ => copy_eq_filter t
  refine ⟨copy_eq_filter, ?_, ?_⟩
  · intro tracks target_bpm out hout
    unfold repair_build_tracks at hout
    rcases hb : bpm2tempo ((repair_target_bpm tracks target_bpm : ℤ) : ℚ) with _ | v
    · simp only [hb] at hout
      exact Option.noConfusion hout
    · by_cases hr : set_tempo_in_range v = true
      · simp only [hb, hr, if_true, Option.some.injEq] at hout
        rw [← hout]
        simpa using hmap tracks
      · simp only [hb, if_neg hr] at hout
        exact Option.noConfusion hout
  · intro tracks sections P out hout
    unfold export_build_tracks at hout
    rcases hb : build_export_tempo_track sections (get_original_tempo_map tracks) P
      with _ | t0
    · simp only [hb] at hout
      exact Option.noConfusion hout
    · simp only [hb, Option.some.injEq] at hout
      rw [← hout]
      simpa using hmap tracks

/-- Witness for C4 at a concrete repair call: the input has one extra track
holding a note event and an embedded tempo event; the output keeps only the
note event, with its delta intact. -/
theorem non_tempo_content_passthrough_witness :
    List.drop 1
        [[MidiMsg.setTempo 500000 0, MidiMsg.timeSignature 4 4 0],
         [MidiMsg.other "note_on" 3]]
      = (List.drop 1
          [[MidiMsg.setTempo 500000 0],
           [MidiMsg.other "note_on" 3, MidiMsg.setTempo 1 5]]).map
          (fun t => t.filter (fun msg => !(MidiMsg.isSetTempo msg))) :=
  non_tempo_content_passthrough.2.1
    [[MidiMsg.setTempo 500000 0],
     [MidiMsg.other "note_on" 3, MidiMsg.setTempo 1 5]] none
    [[MidiMsg.setTempo 500000 0, MidiMsg.timeSignature 4 4 0],
     [MidiMsg.other "note_on" 3]]
    (by with_unfolding_all rfl)

/-- C10: when the copy loop drops a `set_tempo` event carrying a positive
delta `d`, that delta simply disappears: the kept events keep their own
deltas, so every event after the dropped one sits `d` ticks earlier in
absolute position in the output than in the input. -/
theorem dropped_tempo_delta_shift (pre post : List MidiMsg) (tau d : ℤ)
    (_hd : 0 < d)
    (hpre : ∀ m ∈ pre, MidiMsg.isSetTempo m = false)
    (hpost : ∀ m ∈ post, MidiMsg.isSetTempo m = false) :
    copy_non_tempo_track (pre ++ MidiMsg.setTempo tau d :: post) = pre ++ post ∧
    ∀ j, j < post.length →
      absTimeAt (pre ++ post) (pre.length + j)
        = absTimeAt (pre ++ MidiMsg.setTempo tau d :: post) (pre.length + 1 + j) - d := by
  constructor
  · rw [copy_eq_filter]
    have h1 : pre.filter (fun msg => !(MidiMsg.isSetTempo msg)) = pre :=
      List.filter_eq_self.2 fun m hm => by simp [hpre m hm]
    have h2 : post.filter (fun msg => !(MidiMsg.isSetTempo msg)) = post :=
      List.filter_eq_self.2 fun m hm => by simp [hpost m hm]
    have hstep : List.filter (fun msg => !(MidiMsg.isSetTempo msg))
        (pre ++ MidiMsg.setTempo tau d :: post)
        = List.filter (fun msg => !(MidiMsg.isSetTempo msg)) pre
          ++ List.filter (fun msg => !(MidiMsg.isSetTempo msg)) post := by
      rw [List.filter_append]
      rfl
    rw [hstep, h1, h2]
  · intro j hj
    unfold absTimeAt
    have hidx1 : pre.length + j + 1 = pre.length + (j + 1) := by omega
    have hidx2 : pre.length + 1 + j + 1 = pre.length + (j + 2) := by omega
    rw [hidx1, hidx2, List.take_append, List.take_append]
    have e3 : (MidiMsg.setTempo tau d :: post).take (j + 2)
        = MidiMsg.setTempo tau d :: post.take (j + 1) := rfl
    rw [e3]
    simp only [List.map_append, List.sum_append, List.map_cons, List.sum_cons,
      MidiMsg.time]
    ring

/-- Witness for C10: one note before, a dropped `set_tempo` with delta 10,
one note after; the trailing note moves from absolute tick 13 to tick 3. -/
theorem dropped_tempo_delta_shift_witness :
    absTimeAt ([MidiMsg.other "note_on" 1] ++ [MidiMsg.other "note_off" 2])
        (List.length [MidiMsg.other "note_on" 1] + 0)
      = absTimeAt ([MidiMsg.other "note_on" 1]
            ++ MidiMsg.setTempo 500000 10 :: [MidiMsg.other "note_off" 2])
          (List.length [MidiMsg.other "note_on" 1] + 1 + 0) - 10 :=
  (dropped_tempo_delta_shift [MidiMsg.other "note_on" 1]
      [MidiMsg.other "note_off" 2] 500000 10 (by decide)
      (by decide) (by decide)).2 0 (by decide)

theorem pyRound_bounds (q : ℚ) : ⌊q⌋ ≤ pyRound q ∧ pyRound q ≤ ⌊q⌋ + 1 := by
  change ⌊q⌋ ≤ (if q - ⌊q⌋ < 1/2 then ⌊q⌋ else if (1:ℚ)/2 < q - ⌊q⌋ then ⌊q⌋ + 1
      else if ⌊q⌋ % 2 = 0 then ⌊q⌋ else ⌊q⌋ + 1) ∧
    (if q - ⌊q⌋ < 1/2 then ⌊q⌋ else if (1:ℚ)/2 < q - ⌊q⌋ then ⌊q⌋ + 1
      else if ⌊q⌋ % 2 = 0 then ⌊q⌋ else ⌊q⌋ + 1) ≤ ⌊q⌋ + 1
  split_ifs <;> omega

theorem set_tempo_in_range_of_bpm_ge_4 {b : ℤ} (hb : 4 ≤ b) :
    set_tempo_in_range (pyRound (60000000 / (b : ℚ))) = true := by
  have hb0 : (0 : ℚ) < (b : ℚ) := by exact_mod_cast (by omega : (0 : ℤ) < b)
  have hb4 : (4 : ℚ) ≤ (b : ℚ) := by exact_mod_cast hb
  have hqpos : (0 : ℚ) < 60000000 / (b : ℚ) := by positivity
  have hqle : 60000000 / (b : ℚ) ≤ 15000000 := by
    rw [div_le_iff₀ hb0]
    nlinarith
  have hfl_lo : (0 : ℤ) ≤ ⌊(60000000 / (b : ℚ))⌋ := Int.floor_nonneg.2 hqpos.le
  have hfl_hi : ⌊(60000000 / (b : ℚ))⌋ ≤ 15000000 := by
    have h1 : ((⌊(60000000 / (b : ℚ))⌋ : ℤ) : ℚ) ≤ 15000000 :=
      (Int.floor_le _).trans hqle
    exact_mod_cast h1
  obtain ⟨hlo, hhi⟩ := pyRound_bounds (60000000 / (b : ℚ))
  simp only [set_tempo_in_range, Bool.and_eq_true, decide_eq_true_eq]
  omega

theorem first_set_tempo_mem :
    ∀ (t : List MidiMsg) (tau : ℤ),
      first_set_tempo t = some tau → ∃ dt, MidiMsg.setTempo tau dt ∈ t := by
  intro t
  induction t with
  | nil =>
    intro tau h
    exact absurd h (by simp [first_set_tempo])
  | cons m ms ih =>
    intro tau h
    cases m with
    | setTempo a dt =>
      have ha : a = tau := by simpa [first_set_tempo] using h
      subst ha
      exact ⟨dt, by simp⟩
    | timeSignature n d dt =>
      obtain ⟨dt2, hm⟩ := ih tau (by simpa [first_set_tempo] using h)
      exact ⟨dt2, by simp [hm]⟩
    | other k dt =>
      obtain ⟨dt2, hm⟩ := ih tau (by simpa [first_set_tempo] using h)
      exact ⟨dt2, by simp [hm]⟩

theorem detect_ge_4 (tracks : List (List MidiMsg))
    (hval : ValidTempoPayloads tracks) :
    ∀ d, detect_original_bpm tracks = some d → 4 ≤ d := by
  intro d hd
  cases tracks with
  | nil => simp [detect_original_bpm] at hd
  | cons t0 rest =>
    rcases hfst : first_set_tempo t0 with _ | tau
    · simp [detect_original_bpm, hfst] at hd
    · rcases ht2b : tempo2bpm (tau : ℚ) with _ | bv
      · simp [detect_original_bpm, hfst, ht2b] at hd
      · simp only [detect_original_bpm, hfst, ht2b, Option.some.injEq] at hd
        have htau_ne : (tau : ℚ) ≠ 0 := by
          intro h0
          unfold tempo2bpm at ht2b
          rw [if_pos h0] at ht2b
          exact Option.noConfusion ht2b
        have hbv : bv = 60000000 / (tau : ℚ) := by
          unfold tempo2bpm at ht2b
          rw [if_neg htau_ne] at ht2b
          exact (Option.some.inj ht2b).symm
        obtain ⟨dt, hmem⟩ := first_set_tempo_mem t0 tau hfst
        obtain ⟨h0, h1⟩ :=
          hval t0 (by simp) (MidiMsg.setTempo tau dt) hmem tau dt rfl
        have htau1 : 1 ≤ tau := by
          have hne : tau ≠ 0 := fun hz => htau_ne (by rw [hz]; norm_num)
          omega
        have htQ1 : (1 : ℚ) ≤ (tau : ℚ) := by exact_mod_cast htau1
        have htQ2 : (tau : ℚ) ≤ 16777215 := by exact_mod_cast h1
        have hge : (4 : ℚ) ≤ bv + 1 / 2 := by
          rw [hbv]
          have h7 : (7 : ℚ) / 2 ≤ 60000000 / (tau : ℚ) := by
            rw [le_div_iff₀ (by linarith)]
            nlinarith
          linarith
        rw [← hd, pyInt_of_nonneg (by linarith)]
        exact Int.le_floor.2 (by exact_mod_cast hge)

theorem target_ge_4 (tracks : List (List MidiMsg)) (target_bpm : Option ℤ)
    (h : (target_bpm = none ∧ ValidTempoPayloads tracks) ∨
         (∃ b, target_bpm = some b ∧ 4 ≤ b)) :
    4 ≤ repair_target_bpm tracks target_bpm := by
  rcases h with ⟨hn, hval⟩ | ⟨b, hb, hb4⟩
  · subst hn
    cases hdet : detect_original_bpm tracks with
    | none =>
      have hred : repair_target_bpm tracks none = 80 := by
        unfold repair_target_bpm
        rw [hdet]
      rw [hred]
      norm_num
    | some d =>
      have h4 := detect_ge_4 tracks hval d hdet
      have hred : repair_target_bpm tracks none = if d = 0 then 80 else d := by
        unfold repair_target_bpm
        rw [hdet]
      rw [hred, if_neg (show ¬ d = 0 by omega)]
      exact h4
  · subst hb
    exact hb4

/-- C7: for every parseable input (every `set_tempo` payload fits in three
bytes) with auto-detection, or any explicit target BPM of at least 4 (so
the tempo value fits mido's `0..16777215` range and `MetaMessage` does not
raise `ValueError`), the rebuilt track 0 is exactly one `set_tempo` event
carrying the resolved target BPM followed by one 4/4 `time_signature`
event, both at delta 0 (hence absolute tick 0) — one tempo event and one
time-signature event, however many the input had. -/
theorem repair_track0_single_tempo_and_timesig (tracks : List (List MidiMsg))
    (target_bpm : Option ℤ)
    (h : (target_bpm = none ∧ ValidTempoPayloads tracks) ∨
         (∃ b, target_bpm = some b ∧ 4 ≤ b)) :
    ∃ v rest,
      repair_build_tracks tracks target_bpm
          = some ([MidiMsg.setTempo v 0, MidiMsg.timeSignature 4 4 0] :: rest) ∧
      bpm2tempo ((repair_target_bpm tracks target_bpm : ℤ) : ℚ) = some v ∧
      set_tempo_in_range v = true ∧
      List.countP MidiMsg.isSetTempo
          [MidiMsg.setTempo v 0, MidiMsg.timeSignature 4 4 0] = 1 ∧
      List.countP MidiMsg.isTimeSignature
          [MidiMsg.setTempo v 0, MidiMsg.timeSignature 4 4 0] = 1 ∧
      (∀ msg ∈ [MidiMsg.setTempo v 0, MidiMsg.timeSignature 4 4 0],
          MidiMsg.time msg = 0) := by
  have htgt4 : 4 ≤ repair_target_bpm tracks target_bpm := target_ge_4 tracks target_bpm h
  have hcast : ((repair_target_bpm tracks target_bpm : ℤ) : ℚ) ≠ 0 :=
    Int.cast_ne_zero.2 (by omega)
  have hb2t : bpm2tempo ((repair_target_bpm tracks target_bpm : ℤ) : ℚ)
      = some (pyRound (60000000 / ((repair_target_bpm tracks target_bpm : ℤ) : ℚ))) := by
    unfold bpm2tempo
    rw [if_neg hcast]
  have hrange := set_tempo_in_range_of_bpm_ge_4 htgt4
  refine ⟨pyRound (60000000 / ((repair_target_bpm tracks target_bpm : ℤ) : ℚ)),
    (tracks.drop 1).map copy_non_tempo_track, ?_, hb2t, hrange, ?_, ?_, ?_⟩
  · simp only [repair_build_tracks, hb2t]
    rw [if_pos hrange]
  · simp [List.countP, List.countP.go, MidiMsg.isSetTempo, MidiMsg.isTimeSignature]
  · simp [List.countP, List.countP.go, MidiMsg.isSetTempo, MidiMsg.isTimeSignature]
  · intro msg hmsg
    simp only [List.mem_cons, List.not_mem_nil, or_false] at hmsg
    rcases hmsg with h1 | h1 <;> subst h1 <;> rfl

/-- Witness for C7 on an empty track list with auto-detection: the default
80 BPM (tempo 750000) single-tempo track 0. -/
theorem repair_track0_single_tempo_and_timesig_witness :
    ∃ v rest,
      repair_build_tracks ([] : List (List MidiMsg)) none
          = some ([MidiMsg.setTempo v 0, MidiMsg.timeSignature 4 4 0] :: rest) ∧
      bpm2tempo ((repair_target_bpm ([] : List (List MidiMsg)) none : ℤ) : ℚ) = some v ∧
      set_tempo_in_range v = true ∧
      List.countP MidiMsg.isSetTempo
          [MidiMsg.setTempo v 0, MidiMsg.timeSignature 4 4 0] = 1 ∧
      List.countP MidiMsg.isTimeSignature
          [MidiMsg.setTempo v 0, MidiMsg.timeSignature 4 4 0] = 1 ∧
      (∀ msg ∈ [MidiMsg.setTempo v 0, MidiMsg.timeSignature 4 4 0],
          MidiMsg.time msg = 0) :=
  repair_track0_single_tempo_and_timesig [] none
    (Or.inl ⟨rfl, fun t ht => absurd ht (List.not_mem_nil t)⟩)

/-- C9: the repair front door reports failures as values and never lets
them escape.  A missing input path yields the not-found triple with the
initial `details` — for every possible parse and write outcome, so neither
is consulted.  A parse failure yields a failure triple wrapping the
underlying cause.  A write failure (reached once the tempo message was
built) yields the failure triple wrapping the underlying cause with the
fully populated details; a write failure can never produce a success flag,
and a success flag implies the write succeeded. -/
theorem repair_midi_failure_contract (f : String) (tb : Option ℤ)
    (wr : Except String Unit) :
    (∀ parse, repair_midi f false parse tb wr
        = (false, "Input file not found: " ++ f, repair_details0)) ∧
    (∀ e, repair_midi f true (Except.error e) tb wr
        = (false, "Error repairing MIDI: " ++ e, repair_details0)) ∧
    (∀ tracks e v, wr = Except.error e →
        bpm2tempo ((repair_target_bpm tracks tb : ℤ) : ℚ) = some v →
        set_tempo_in_range v = true →
        repair_midi f true (Except.ok tracks) tb wr
          = (false, "Error repairing MIDI: " ++ e,
             { original_bpm := detect_original_bpm tracks,
               target_bpm := some (repair_target_bpm tracks tb),
               tracks_processed := tracks.length,
               notes_copied := notes_copied tracks })) ∧
    (∀ tracks e, wr = Except.error e →
        (repair_midi f true (Except.ok tracks) tb wr).1 = false) ∧
    (∀ tracks, (repair_midi f true (Except.ok tracks) tb wr).1 = true →
        wr = Except.ok ()) := by
  refine ⟨?_, ?_, ?_, ?_, ?_⟩
  · intro parse
    simp [repair_midi]
  · intro e
    simp [repair_midi]
  · intro tracks e v hwr hb hr
    subst hwr
    simp only [repair_midi, if_neg (by simp : ¬(true = false)), hb]
    rw [if_pos hr]
  · intro tracks e hwr
    subst hwr
    simp only [repair_midi, if_neg (by simp : ¬(true = false))]
    rcases hb : bpm2tempo ((repair_target_bpm tracks tb : ℤ) : ℚ) with _ | v
    · simp [hb]
    · by_cases hr : set_tempo_in_range v = true
      · simp [hb, hr]
      · simp [hb, if_neg hr]
  · intro tracks hsucc
    cases wr with
    | ok u => cases u; rfl
    | error e =>
      exfalso
      rw [repair_midi] at hsucc
      simp only [if_neg (by simp : ¬(true = false))] at hsucc
      rcases hb : bpm2tempo ((repair_target_bpm tracks tb : ℤ) : ℚ) with _ | v
      · simp [hb] at hsucc
      · by_cases hr : set_tempo_in_range v = true
        · simp [hb, hr] at hsucc
        · simp [hb, if_neg hr] at hsucc

/-- Witness for C9: a write failure at a concrete auto-detect call is
reported as the full failure triple wrapping the cause. -/
theorem repair_midi_failure_contract_witness :
    repair_midi "song.mid" true (Except.ok []) none (Except.error "disk full")
      = (false, "Error repairing MIDI: disk full",
         { original_bpm := none, target_bpm := some 80,
           tracks_processed := 0, notes_copied := 0 }) :=
  (repair_midi_failure_contract "song.mid" none (Except.error "disk full")).2.2.1
    [] "disk full" 750000 rfl (by with_unfolding_all rfl)
    (by with_unfolding_all rfl)

theorem tempo2bpm_of_ne {t : ℤ} (h : t ≠ 0) :
    tempo2bpm (t : ℚ) = some (60000000 / (t : ℚ)) := by
  unfold tempo2bpm
  rw [if_neg (Int.cast_ne_zero.2 h)]

theorem tempo2bpm_500000 : tempo2bpm 500000 = some 120 := by
  with_unfolding_all rfl

theorem seconds_to_ticks_go_nil (T : ℚ) (P pt ptau : ℤ) (ct : ℚ) (ck : ℤ)
    (hp : ptau ≠ 0) :
    seconds_to_ticks_go T P [] pt ptau ct ck
      = some (ck + pyInt ((T - ct) * tps_val P ptau)) := by
  simp only [seconds_to_ticks_go, tempo2bpm_of_ne hp, tps_val]

theorem seconds_to_ticks_go_cons (T : ℚ) (P tp tau pt ptau : ℤ)
    (tl : List (ℤ × ℤ)) (ct : ℚ) (ck : ℤ) (hp : ptau ≠ 0) :
    seconds_to_ticks_go T P ((tp, tau) :: tl) pt ptau ct ck
      = if T < ct + (if 0 < tps_val P ptau
            then ((tp - pt : ℤ) : ℚ) / tps_val P ptau else 0)
        then some (ck + pyInt ((T - ct) * tps_val P ptau))
        else seconds_to_ticks_go T P tl tp tau
          (ct + (if 0 < tps_val P ptau
            then ((tp - pt : ℤ) : ℚ) / tps_val P ptau else 0))
          (ck + (tp - pt)) := by
  simp only [seconds_to_ticks_go, tempo2bpm_of_ne hp, tps_val]

theorem seconds_to_ticks_go_total (T : ℚ) (P : ℤ) :
    ∀ (l : List (ℤ × ℤ)) (pt ptau : ℤ) (ct : ℚ) (ck : ℤ),
      ptau ≠ 0 → (∀ e ∈ l, e.2 ≠ 0) →
      ∃ r, seconds_to_ticks_go T P l pt ptau ct ck = some r := by
  intro l
  induction l with
  | nil =>
    intro pt ptau ct ck hp _
    exact ⟨ck + pyInt ((T - ct) * tps_val P ptau),
      seconds_to_ticks_go_nil T P pt ptau ct ck hp⟩
  | cons hd tl ih =>
    intro pt ptau ct ck hp hl
    obtain ⟨tp, tau⟩ := hd
    rw [seconds_to_ticks_go_cons T P tp tau pt ptau tl ct ck hp]
    by_cases hcond : T < ct + (if 0 < tps_val P ptau
        then ((tp - pt : ℤ) : ℚ) / tps_val P ptau else 0)
    · rw [if_pos hcond]
      exact ⟨_, rfl⟩
    · rw [if_neg hcond]
      exact ih tp tau _ _ (hl (tp, tau) (by simp))
        (fun e he => hl e (by simp [he]))

theorem seconds_to_ticks_total (T : ℚ) (m : List (ℤ × ℤ)) (P : ℤ)
    (hm : ∀ e ∈ m, e.2 ≠ 0) :
    ∃ r, seconds_to_ticks_using_original_tempo T m P = some r := by
  cases m with
  | nil =>
    refine ⟨pyInt (T * (((P : ℚ) * 120) / 60)), ?_⟩
    simp [seconds_to_ticks_using_original_tempo, tempo2bpm_500000]
  | cons hd tl =>
    obtain ⟨t0, tau0⟩ := hd
    have h0 : tau0 ≠ 0 := hm (t0, tau0) (by simp)
    exact seconds_to_ticks_go_total T P ((t0, tau0) :: tl) 0 tau0 0 0 h0 hm

theorem length_stable_insert {α : Type} (le : α → α → Bool) (x : α)
    (l : List α) : (stable_insert le x l).length = l.length + 1 := by
  induction l with
  | nil => rfl
  | cons y ys ih =>
    unfold stable_insert
    cases hle : le y x <;> simp [hle, ih]

theorem stable_sort_foldl_length {α : Type} (le : α → α → Bool) :
    ∀ (l acc : List α),
      (l.foldl (fun acc x => stable_insert le x acc) acc).length
        = acc.length + l.length := by
  intro l
  induction l with
  | nil => intro acc; simp
  | cons x xs ih =>
    intro acc
    simp only [List.foldl_cons]
    rw [ih, length_stable_insert]
    simp
    omega

theorem length_stable_sort {α : Type} (le : α → α → Bool) (l : List α) :
    (stable_sort le l).length = l.length := by
  simpa [stable_sort] using stable_sort_foldl_length le l []

theorem mem_stable_insert {α : Type} (le : α → α → Bool) (x y : α)
    (l : List α) : y ∈ stable_insert le x l ↔ y = x ∨ y ∈ l := by
  induction l with
  | nil => simp [stable_insert]
  | cons z zs ih =>
    unfold stable_insert
    cases hz : le z x
    · rw [if_neg (by simp : ¬ false = true)]
      exact List.mem_cons
    · rw [if_pos (rfl : true = true), List.mem_cons, ih, List.mem_cons]
      tauto

theorem mem_stable_sort_foldl {α : Type} (le : α → α → Bool) :
    ∀ (l acc : List α) (y : α),
      y ∈ l.foldl (fun acc x => stable_insert le x acc) acc
        ↔ y ∈ acc ∨ y ∈ l := by
  intro l
  induction l with
  | nil => intro acc y; simp
  | cons x xs ih =>
    intro acc y
    simp only [List.foldl_cons]
    rw [ih]
    rw [mem_stable_insert]
    simp [List.mem_cons]
    tauto

theorem mem_stable_sort {α : Type} (le : α → α → Bool) (l : List α) (y : α) :
    y ∈ stable_sort le l ↔ y ∈ l := by
  simpa [stable_sort] using mem_stable_sort_foldl le l [] y

theorem export_loop_spec (m : List (ℤ × ℤ)) (P : ℤ)
    (hm : ∀ e ∈ m, e.2 ≠ 0) :
    ∀ l : List Section, (∀ s ∈ l, 4 ≤ s.bpm) → ∀ lastTicks : ℤ,
      ∃ msgs, export_loop m P l lastTicks = some msgs ∧
        msgs.length = l.length ∧ ∀ x ∈ msgs, MidiMsg.isSetTempo x = true := by
  intro l
  induction l with
  | nil => intro _ lastTicks; exact ⟨[], rfl, rfl, by simp⟩
  | cons s rest ih =>
    intro hl lastTicks
    obtain ⟨cur, hcur⟩ := seconds_to_ticks_total s.start m P hm
    have hbpm4 : 4 ≤ s.bpm := hl s (by simp)
    have hbpm : ((s.bpm : ℤ) : ℚ) ≠ 0 := Int.cast_ne_zero.2 (by omega)
    have hb2t : bpm2tempo ((s.bpm : ℤ) : ℚ)
        = some (pyRound (60000000 / ((s.bpm : ℤ) : ℚ))) := by
      unfold bpm2tempo
      rw [if_neg hbpm]
    have hrange := set_tempo_in_range_of_bpm_ge_4 hbpm4
    obtain ⟨msgs, hmsgs, hlen, hall⟩ := ih (fun t ht => hl t (by simp [ht])) cur
    refine ⟨MidiMsg.setTempo (pyRound (60000000 / ((s.bpm : ℤ) : ℚ)))
      (cur - lastTicks) :: msgs, ?_, ?_, ?_⟩
    · simp only [export_loop, hcur, hb2t]
      rw [if_pos hrange]
      simp only [hmsgs]
    · simp [hlen]
    · intro x hx
      rcases List.mem_cons.1 hx with h1 | h1
      · subst h1; rfl
      · exact hall x h1

/-- C8 (counterexample): a single segment with BPM 1 makes `bpm2tempo`
produce 60000000, outside mido's `set_tempo` range `0..16777215`, so the
`MetaMessage` constructor raises `ValueError` and the export emits nothing
at all — not one tempo event per segment as the claim requires for every
segment list. -/
theorem export_one_tempo_event_per_segment_counterexample :
    build_export_tempo_track
        [{ start := 0, end_ := 10, bpm := 1 }] [(0, 500000)] 480 = none := by
  with_unfolding_all rfl

/-- C8 (amended): whenever the conversions can neither hit a zero division
(no zero tempo in the original map) nor an out-of-range tempo value (every
segment BPM at least 4, so `bpm2tempo` lands inside mido's `0..16777215`),
segment export succeeds and its new track 0 is the 4/4 time signature
followed by exactly one `set_tempo` message per input segment — one event
per segment even when consecutive computed tick positions coincide (the
emitted delta is then just 0), and an empty segment list yields a tempo
track holding only the time signature. -/
theorem export_one_tempo_event_per_segment (sections : List Section)
    (m : List (ℤ × ℤ)) (P : ℤ)
    (hm : ∀ e ∈ m, e.2 ≠ 0) (hbpm : ∀ s ∈ sections, 4 ≤ s.bpm) :
    ∃ msgs, build_export_tempo_track sections m P
        = some (MidiMsg.timeSignature 4 4 0 :: msgs) ∧
      msgs.length = sections.length ∧
      (∀ x ∈ msgs, MidiMsg.isSetTempo x = true) ∧
      (sections = [] → msgs = []) := by
  have hsorted : ∀ s ∈ sort_sections_by_start sections, 4 ≤ s.bpm := by
    intro s hs
    exact hbpm s ((mem_stable_sort _ sections s).1 hs)
  obtain ⟨msgs, hmsgs, hlen, hall⟩ :=
    export_loop_spec m P hm (sort_sections_by_start sections) hsorted 0
  refine ⟨msgs, ?_, ?_, hall, ?_⟩
  · simp only [build_export_tempo_track, hmsgs]
  · rw [hlen]
    exact length_stable_sort _ sections
  · intro hempty
    subst hempty
    have h0 : msgs.length = 0 := by rw [hlen]; rfl
    exact List.length_eq_zero.1 h0

theorem tps_val_pos {P ptau : ℤ} (hP : 0 < P) (hptau : 0 < ptau) :
    0 < tps_val P ptau := by
  unfold tps_val
  have h1 : (0 : ℚ) < (P : ℚ) := by exact_mod_cast hP
  have h2 : (0 : ℚ) < (ptau : ℚ) := by exact_mod_cast hptau
  positivity

theorem seconds_to_ticks_go_lb (T : ℚ) (P : ℤ) (hP : 0 < P) :
    ∀ (l : List (ℤ × ℤ)) (pt ptau : ℤ) (ct : ℚ) (ck : ℤ),
      0 < ptau → TicksChain pt l → PosTempos l → ct ≤ T →
      ∀ r, seconds_to_ticks_go T P l pt ptau ct ck = some r → ck ≤ r := by
  intro l
  induction l with
  | nil =>
    intro pt ptau ct ck hptau _ _ hct r hr
    rw [seconds_to_ticks_go_nil T P pt ptau ct ck hptau.ne'] at hr
    have htps : 0 < tps_val P ptau := tps_val_pos hP hptau
    have hnn : 0 ≤ (T - ct) * tps_val P ptau :=
      mul_nonneg (by linarith) htps.le
    have h1 := pyInt_nonneg hnn
    have heq := Option.some.inj hr
    omega
  | cons hd tl ih =>
    intro pt ptau ct ck hptau hchain hpos hct r hr
    obtain ⟨tp, tau⟩ := hd
    obtain ⟨hpt_le, hchain2⟩ := hchain
    have htau : 0 < tau := hpos (tp, tau) (by simp)
    have hpos2 : PosTempos tl := fun e he => hpos e (by simp [he])
    have htps : 0 < tps_val P ptau := tps_val_pos hP hptau
    rw [seconds_to_ticks_go_cons T P tp tau pt ptau tl ct ck hptau.ne'] at hr
    rw [if_pos htps] at hr
    set seg : ℚ := ((tp - pt : ℤ) : ℚ) / tps_val P ptau with hseg
    have hseg_nn : 0 ≤ seg := by
      rw [hseg]
      exact div_nonneg (by exact_mod_cast sub_nonneg.2 hpt_le) htps.le
    by_cases hcond : T < ct + seg
    · rw [if_pos hcond] at hr
      have hnn : 0 ≤ (T - ct) * tps_val P ptau :=
        mul_nonneg (by linarith) htps.le
      have h1 := pyInt_nonneg hnn
      have heq := Option.some.inj hr
      omega
    · rw [if_neg hcond] at hr
      have hct2 : ct + seg ≤ T := le_of_not_lt hcond
      have h2 := ih tp tau (ct + seg) (ck + (tp - pt)) htau hchain2 hpos2 hct2 r hr
      omega

theorem seconds_to_ticks_go_mono (T1 T2 : ℚ) (P : ℤ) (hP : 0 < P)
    (hT : T1 ≤ T2) :
    ∀ (l : List (ℤ × ℤ)) (pt ptau : ℤ) (ct : ℚ) (ck : ℤ),
      0 < ptau → TicksChain pt l → PosTempos l →
      ∀ r1 r2, seconds_to_ticks_go T1 P l pt ptau ct ck = some r1 →
        seconds_to_ticks_go T2 P l pt ptau ct ck = some r2 → r1 ≤ r2 := by
  intro l
  induction l with
  | nil =>
    intro pt ptau ct ck hptau _ _ r1 r2 h1 h2
    have htps : 0 < tps_val P ptau := tps_val_pos hP hptau
    rw [seconds_to_ticks_go_nil T1 P pt ptau ct ck hptau.ne'] at h1
    rw [seconds_to_ticks_go_nil T2 P pt ptau ct ck hptau.ne'] at h2
    have hmul : (T1 - ct) * tps_val P ptau ≤ (T2 - ct) * tps_val P ptau :=
      mul_le_mul_of_nonneg_right (by linarith) htps.le
    have h3 := pyInt_mono hmul
    have e1 := Option.some.inj h1
    have e2 := Option.some.inj h2
    omega
  | cons hd tl ih =>
    intro pt ptau ct ck hptau hchain hpos r1 r2 h1 h2
    obtain ⟨tp, tau⟩ := hd
    obtain ⟨hpt_le, hchain2⟩ := hchain
    have htau : 0 < tau := hpos (tp, tau) (by simp)
    have hpos2 : PosTempos tl := fun e he => hpos e (by simp [he])
    have htps : 0 < tps_val P ptau := tps_val_pos hP hptau
    rw [seconds_to_ticks_go_cons T1 P tp tau pt ptau tl ct ck hptau.ne',
      if_pos htps] at h1
    rw [seconds_to_ticks_go_cons T2 P tp tau pt ptau tl ct ck hptau.ne',
      if_pos htps] at h2
    set seg : ℚ := ((tp - pt : ℤ) : ℚ) / tps_val P ptau with hseg
    by_cases hc1 : T1 < ct + seg
    · rw [if_pos hc1] at h1
      by_cases hc2 : T2 < ct + seg
      · rw [if_pos hc2] at h2
        have hmul : (T1 - ct) * tps_val P ptau ≤ (T2 - ct) * tps_val P ptau :=
          mul_le_mul_of_nonneg_right (by linarith) htps.le
        have h3 := pyInt_mono hmul
        have e1 := Option.some.inj h1
        have e2 := Option.some.inj h2
        omega
      · rw [if_neg hc2] at h2
        have hlt : (T1 - ct) * tps_val P ptau < ((tp - pt : ℤ) : ℚ) := by
          have h3 : T1 - ct < seg := by linarith
          have h4 := mul_lt_mul_of_pos_right h3 htps
          rwa [hseg, div_mul_cancel₀ _ htps.ne'] at h4
        have h4 : pyInt ((T1 - ct) * tps_val P ptau) ≤ tp - pt :=
          pyInt_le_of_lt_intCast hlt
        have h5 : ck + (tp - pt) ≤ r2 :=
          seconds_to_ticks_go_lb T2 P hP tl tp tau (ct + seg) (ck + (tp - pt))
            htau hchain2 hpos2 (le_of_not_lt hc2) r2 h2
        have e1 := Option.some.inj h1
        omega
    · have hc2 : ¬ T2 < ct + seg := fun hlt => hc1 (lt_of_le_of_lt hT hlt)
      rw [if_neg hc1] at h1
      rw [if_neg hc2] at h2
      exact ih tp tau (ct + seg) (ck + (tp - pt)) htau hchain2 hpos2 r1 r2 h1 h2

/-- C6: for every tempo map with non-negative, non-decreasing tick positions
and positive tempos (which covers every multi-entry map of the claim) and
every positive `ticks_per_beat`, the conversion succeeds and is monotonically
non-decreasing in the time argument: `T1 ≤ T2` gives `ticks(T1) ≤
ticks(T2)`. -/
theorem seconds_to_ticks_monotone (T1 T2 : ℚ) (m : List (ℤ × ℤ)) (P : ℤ)
    (hchain : TicksChain 0 m) (hpos : PosTempos m) (hP : 0 < P)
    (hT : T1 ≤ T2) :
    ∃ r1 r2, seconds_to_ticks_using_original_tempo T1 m P = some r1 ∧
      seconds_to_ticks_using_original_tempo T2 m P = some r2 ∧ r1 ≤ r2 := by
  have hnz : ∀ e ∈ m, e.2 ≠ 0 := fun e he => (hpos e he).ne'
  obtain ⟨r1, h1⟩ := seconds_to_ticks_total T1 m P hnz
  obtain ⟨r2, h2⟩ := seconds_to_ticks_total T2 m P hnz
  refine ⟨r1, r2, h1, h2, ?_⟩
  cases m with
  | nil =>
    have hP2 : (0 : ℚ) ≤ (P : ℚ) := by exact_mod_cast hP.le
    simp only [seconds_to_ticks_using_original_tempo, tempo2bpm_500000] at h1 h2
    have hmul : T1 * (((P : ℚ) * 120) / 60) ≤ T2 * (((P : ℚ) * 120) / 60) :=
      mul_le_mul_of_nonneg_right hT (by positivity)
    have h3 := pyInt_mono hmul
    have e1 := Option.some.inj h1
    have e2 := Option.some.inj h2
    omega
  | cons hd tl =>
    obtain ⟨t0, tau0⟩ := hd
    have htau0 : 0 < tau0 := hpos (t0, tau0) (by simp)
    exact seconds_to_ticks_go_mono T1 T2 P hP hT ((t0, tau0) :: tl) 0 tau0 0 0
      htau0 hchain hpos r1 r2 h1 h2

/-- Witness for C6 on the two-entry map with tempos 500000 and 250000. -/
theorem seconds_to_ticks_monotone_witness :
    ∃ r1 r2,
      seconds_to_ticks_using_original_tempo 1 [(0, 500000), (960, 250000)] 480
          = some r1 ∧
      seconds_to_ticks_using_original_tempo 3 [(0, 500000), (960, 250000)] 480
          = some r2 ∧
      r1 ≤ r2 :=
  seconds_to_ticks_monotone 1 3 [(0, 500000), (960, 250000)] 480
    ⟨by norm_num, by norm_num, trivial⟩
    (by intro e he; fin_cases he <;> norm_num)
    (by norm_num) (by norm_num)

/-- Witness for C8: one segment against a one-entry original map. -/
theorem export_one_tempo_event_per_segment_witness :
    ∃ msgs, build_export_tempo_track
        [{ start := 0, end_ := 10, bpm := 100 }] [(0, 500000)] 480
        = some (MidiMsg.timeSignature 4 4 0 :: msgs) ∧
      msgs.length = List.length
        [({ start := 0, end_ := 10, bpm := 100 } : Section)] ∧
      (∀ x ∈ msgs, MidiMsg.isSetTempo x = true) ∧
      ([({ start := 0, end_ := 10, bpm := 100 } : Section)] = [] → msgs = []) :=
  export_one_tempo_event_per_segment
    [{ start := 0, end_ := 10, bpm := 100 }] [(0, 500000)] 480
    (by intro e he; simp only [List.mem_singleton] at he; subst he; decide)
    (by intro s hs; simp only [List.mem_singleton] at hs; subst hs; decide)

end MidiRepair
